import Mathlib

/-!
Shallow embedding of `TimesheetCalculator.py` (blakedehaas/Timesheet-Calculator).

Conventions of the embedding:
* Clock points are minutes since midnight, modelled as `ℤ` (the Python code
  works on the integers returned by `_parse_time`; parsing of the
  `"H:MM AM/PM"` strings itself is configuration plumbing outside the claims,
  so `Config` carries the already-parsed minute values).
* Python numbers holding hours / percentages are modelled as exact rationals
  `ℚ`; Python's `int(x)` truncation toward zero is `pyInt`.
* A mutable `[task_name, minutes]` pair is `Task := String × ℤ`; the per
  project queues live in an insertion-ordered association list, mirroring a
  Python dict.  `alookup`/`aupdate` are dict get / in-place mutation of the
  list object bound to a key.
* Fallible code (`raise ValueError`, `ZeroDivisionError`, the final
  `assert`) is modelled with `Except AppError`.
* Emitted schedule lines keep their numeric content (`Line.task start stop
  name`); rendering through `_format_time` into strings is presentational and
  kept separately as `format_time`.
-/

namespace Timesheet

/-- A `[task_name, allocated_minutes]` pair from `_initialize_projects`. -/
abbrev Task := String × ℤ

/-- An emitted schedule span: (start_minute, end_minute, task_name). -/
abbrev Entry := ℤ × ℤ × String

/-- One output line of `generate_day`: the `f"{day_name}:"` header, a task
time-range line, or the fixed Lunch line. -/
inductive Line where
  | header (day : String)
  | task (start stop : ℤ) (name : String)
  | lunch
deriving DecidableEq

/-- The error-shaped exits of the program: Python's `ZeroDivisionError` from
`paid_time_off / num_projects`, the `ValueError` raised on negative effective
work hours, and the final `assert not tasks` failure (which carries the
project name and its remaining task list in its message). -/
inductive AppError where
  | zeroDivision
  | negativeHours (project : String)
  | assertionFailed (project : String) (remaining : List Task)
deriving DecidableEq

/-- Per-project configuration: `total_hours` and the ordered
`speedtype_percentage_distribution`. -/
structure ProjectConfig where
  total_hours : ℚ
  dist : List (String × ℚ)

/-- The validated configuration record (times already parsed to minutes since
midnight, as `TimesheetGenerator.__init__` does). -/
structure Config where
  projects : List (String × ProjectConfig)
  work_schedule : List (String × String)
  weeks : ℕ
  workday_start : ℤ
  lunch_start : ℤ
  lunch_end : ℤ
  workday_end : ℤ
  paid_time_off : ℚ

/-- Python `int(x)`: truncation toward zero. -/
def pyInt (q : ℚ) : ℤ := if 0 ≤ q then ⌊q⌋ else ⌈q⌉

/-- Ordered-dict lookup (`d.get(key)`): first binding of the key wins. -/
def alookup {β : Type} : List (String × β) → String → Option β
  | [], _ => none
  | (k, v) :: rest, key => if k = key then some v else alookup rest key

/-- In-place replacement of the list object bound to a key; a missing key
leaves the association list unchanged. -/
def aupdate {β : Type} : List (String × β) → String → β → List (String × β)
  | [], _, _ => []
  | (k, v) :: rest, key, w => if k = key then (k, w) :: rest else (k, v) :: aupdate rest key w

/-- The snap in `generate_day`: `if abs(end_time - boundary) <= 1: end_time =
boundary`. -/
def snapEnd (e b : ℤ) : ℤ := if |e - b| ≤ 1 then b else e

/-- One segment pass of `TimesheetGenerator.generate_day` (the morning and
afternoon `while` loops are this code with `b = lunch_start` resp.
`b = workday_end`): starting from `current_time = c`, while the remaining
time `b - c` is positive and the queue is non-empty, either consume the whole
front task (emit, advance, `tasks.pop(0)`), or fill the segment with part of
it (emit, `tasks[0][1] -= remaining`, jump to the boundary, which ends the
loop).  Returns the emitted entries and the queue as left by the mutation. -/
def scheduleSegment (b : ℤ) : List Task → ℤ → List Entry × List Task
  | [], _ => ([], [])
  | (n, m) :: rest, c =>
    if 0 < b - c then
      if m ≤ b - c then
        ((c, snapEnd (c + m) b, n) :: (scheduleSegment b rest (snapEnd (c + m) b)).1,
         (scheduleSegment b rest (snapEnd (c + m) b)).2)
      else
        ([(c, snapEnd (c + (b - c)) b, n)], (n, m - (b - c)) :: rest)
    else ([], (n, m) :: rest)

/-- `TimesheetGenerator._format_time`. -/
def format_time (minutes_since_midnight : ℤ) : String :=
  let hour := minutes_since_midnight / 60
  let minute := minutes_since_midnight % 60
  let period := if hour < 12 ∨ hour = 24 then "AM" else "PM"
  let hour_mod := hour % 12
  let hour_mod := if hour_mod = 0 then 12 else hour_mod
  toString hour_mod ++ ":" ++ (if minute < 10 then "0" else "") ++ toString minute ++ " " ++ period

/-- Wrap an emitted entry as an output line. -/
def lineOfEntry (e : Entry) : Line := Line.task e.1 e.2.1 e.2.2

/-- `TimesheetGenerator.generate_day`: header line, morning segment from
`workday_start` toward `lunch_start`, the unconditional Lunch line, afternoon
segment from `lunch_end` toward `workday_end`.  Returns the day's lines and
the queue state after the day's mutations. -/
def generate_day (cfg : Config) (day_name : String) (tasks : List Task) :
    List Line × List Task :=
  (Line.header day_name ::
    ((scheduleSegment cfg.lunch_start tasks cfg.workday_start).1.map lineOfEntry ++
      Line.lunch ::
      (scheduleSegment cfg.workday_end
        (scheduleSegment cfg.lunch_start tasks cfg.workday_start).2 cfg.lunch_end).1.map lineOfEntry),
   (scheduleSegment cfg.workday_end
     (scheduleSegment cfg.lunch_start tasks cfg.workday_start).2 cfg.lunch_end).2)

/-- `allocated = int(work_hours * 60 * (percentage / 100))` from
`_initialize_projects`. -/
def allocated_minutes (work_hours percentage : ℚ) : ℤ :=
  pyInt (work_hours * 60 * (percentage / 100))

/-- The task list built for one project in `_initialize_projects`: one task
per distribution item in insertion order, then the `"Paid Time Off"` task
when the per-project PTO share is positive. -/
def buildTasks (work_hours pto : ℚ) (dist : List (String × ℚ)) : List Task :=
  dist.map (fun tp => (tp.1, allocated_minutes work_hours tp.2)) ++
    (if 0 < pto then [("Paid Time Off", pyInt (pto * 60))] else [])

/-- The per-project loop of `_initialize_projects`: raises `ValueError` at the
first project whose effective work hours are negative, otherwise collects the
projects' task queues in order. -/
def initProjectsGo (pto : ℚ) : List (String × ProjectConfig) →
    Except AppError (List (String × List Task))
  | [] => Except.ok []
  | (name, pc) :: rest =>
    if pc.total_hours - pto < 0 then Except.error (AppError.negativeHours name)
    else
      match initProjectsGo pto rest with
      | Except.error e => Except.error e
      | Except.ok tail => Except.ok ((name, buildTasks (pc.total_hours - pto) pto pc.dist) :: tail)

/-- `TimesheetApp._initialize_projects`: `pto_per_project =
paid_time_off / num_projects if paid_time_off > 0 else 0` (a Python division
that raises `ZeroDivisionError` when there are no projects), then the
per-project allocation loop. -/
def initializeProjects (cfg : Config) : Except AppError (List (String × List Task)) :=
  if 0 < cfg.paid_time_off then
    if cfg.projects.length = 0 then Except.error AppError.zeroDivision
    else initProjectsGo (cfg.paid_time_off / (cfg.projects.length : ℚ)) cfg.projects
  else initProjectsGo 0 cfg.projects

/-- The per-project PTO share as the spec describes it (`PTO / project_count`
when PTO is positive, else 0). -/
def ptoShare (cfg : Config) : ℚ :=
  if 0 < cfg.paid_time_off then cfg.paid_time_off / (cfg.projects.length : ℚ) else 0

/-- `days_order = ["Monday", ..., "Friday"]` from `TimesheetApp.run`. -/
def days_order : List String := ["Monday", "Tuesday", "Wednesday", "Thursday", "Friday"]

/-- `days_order[day % len(days_order)]`. -/
def dayName (i : ℕ) : String := days_order.getD (i % days_order.length) ""

/-- One iteration of the day loop in `TimesheetApp.run`: look the weekday up
in `work_schedule`, fetch that project's queue (`project_tasks.get(project,
[])`, an empty fresh list when the weekday or project is unmapped), generate
the day, and store the mutated queue back.  Returns ((project, day lines),
updated project queues). -/
def dayStep (cfg : Config) (pt : List (String × List Task)) (i : ℕ) :
    (Option String × List Line) × List (String × List Task) :=
  match alookup cfg.work_schedule (dayName i) with
  | none => ((none, (generate_day cfg (dayName i) []).1), pt)
  | some p =>
    ((some p, (generate_day cfg (dayName i) ((alookup pt p).getD [])).1),
     aupdate pt p (generate_day cfg (dayName i) ((alookup pt p).getD [])).2)

/-- The day loop of `TimesheetApp.run`, processing `k` further days starting
at index `i`. -/
def runDaysFrom (cfg : Config) : ℕ → ℕ → List (String × List Task) →
    List (Option String × List Line) × List (String × List Task)
  | _, 0, pt => ([], pt)
  | i, Nat.succ k, pt =>
    ((dayStep cfg pt i).1 :: (runDaysFrom cfg (i + 1) k (dayStep cfg pt i).2).1,
     (runDaysFrom cfg (i + 1) k (dayStep cfg pt i).2).2)

/-- `for day in range(total_work_days)` with `total_work_days = weeks * 5`. -/
def runDays (cfg : Config) (pt : List (String × List Task)) :
    List (Option String × List Line) × List (String × List Task) :=
  runDaysFrom cfg 0 (cfg.weeks * 5) pt

/-- The final `for project, tasks in project_tasks.items(): assert not tasks`
check: the first project whose queue is non-empty, if any. -/
def firstNonEmpty : List (String × List Task) → Option (String × List Task)
  | [] => none
  | x :: rest => if x.2 = [] then firstNonEmpty rest else some x

/-- `TimesheetApp.run` after `_initialize_projects`: run the day loop, then
the queue-emptiness assertion; on success the collected day outputs are
printed. -/
def runApp (cfg : Config) : Except AppError (List (Option String × List Line)) :=
  match initializeProjects cfg with
  | Except.error e => Except.error e
  | Except.ok pt =>
    match firstNonEmpty (runDays cfg pt).2 with
    | some pts => Except.error (AppError.assertionFailed pts.1 pts.2)
    | none => Except.ok (runDays cfg pt).1

/-- Duration of an emitted entry, in minutes. -/
def entryMinutes (e : Entry) : ℤ := e.2.1 - e.1

/-- Total duration of a list of entries. -/
def entriesMinutes (es : List Entry) : ℤ := (es.map entryMinutes).sum

/-- Minutes covered by an output line; headers and the Lunch line count 0, so
sums over lines are sums of task minutes excluding Lunch. -/
def lineMinutes : Line → ℤ
  | Line.task s e _ => e - s
  | _ => 0

/-- Task minutes (excluding Lunch) covered by a day's lines. -/
def linesMinutes (ls : List Line) : ℤ := (ls.map lineMinutes).sum

/-- Task minutes (excluding Lunch) emitted across the run on days assigned to
the given project. -/
def emittedFor (p : String) (outs : List (Option String × List Line)) : ℤ :=
  (outs.map (fun d => if d.1 = some p then linesMinutes d.2 else 0)).sum

/-- Total remaining minutes in one queue. -/
def queueTotal (ts : List Task) : ℤ := (ts.map Prod.snd).sum

/-- Total remaining minutes across all project queues. -/
def totalAlloc (pt : List (String × List Task)) : ℤ :=
  (pt.map (fun x => queueTotal x.2)).sum

/-- Schedulable minutes of one day: morning plus afternoon length
(`effective_day_minutes` in `TimesheetGenerator.__init__`). -/
def dayCap (cfg : Config) : ℤ :=
  (cfg.lunch_start - cfg.workday_start) + (cfg.workday_end - cfg.lunch_end)

/-- Total schedulable capacity of the run: `weeks * 5` days of `dayCap`. -/
def capacity (cfg : Config) : ℤ := ((cfg.weeks * 5 : ℕ) : ℤ) * dayCap cfg

/-- Remaining minutes of an optional queue (0 when the key is absent). -/
def optTotal : Option (List Task) → ℤ
  | none => 0
  | some q => queueTotal q

/-- The frame shape a scheduling pass leaves a queue in: the final queue is a
suffix of the initial one, except that the suffix's front task may have had
its minutes reduced in place (same name, same tasks behind it). -/
def frameOk (init fin : List Task) : Prop :=
  ∃ k, fin = init.drop k ∨
    ∃ n m m' rest, init.drop k = (n, m) :: rest ∧ fin = (n, m') :: rest ∧ m' ≤ m

/-- A configuration whose truncated allocation produces a zero-minute task:
one project of 1 total hour split 1% / 99%, so task `"A"` gets
`int(60 * 0.01) = 0` minutes. -/
def cfgZeroTask : Config where
  projects := [("P", { total_hours := 1, dist := [("A", 1), ("B", 99)] })]
  work_schedule := [("Monday", "P"), ("Tuesday", "P"), ("Wednesday", "P"),
    ("Thursday", "P"), ("Friday", "P")]
  weeks := 1
  workday_start := 480
  lunch_start := 720
  lunch_end := 780
  workday_end := 1020
  paid_time_off := 0

/-- A configuration where boundary snapping inflates an emitted duration: a
single 239-minute task in a 240-minute morning ends one minute before lunch
and is snapped onto the lunch boundary. -/
def cfgSnap : Config where
  projects := [("P", { total_hours := 239/60, dist := [("X", 100)] })]
  work_schedule := [("Monday", "P"), ("Tuesday", "P"), ("Wednesday", "P"),
    ("Thursday", "P"), ("Friday", "P")]
  weeks := 1
  workday_start := 480
  lunch_start := 720
  lunch_end := 780
  workday_end := 1020
  paid_time_off := 0

/-- A configuration with zero scheduled weeks but one hour of allocated work,
so the run necessarily ends with a non-empty queue. -/
def cfgLeftover : Config where
  projects := [("P", { total_hours := 1, dist := [("X", 100)] })]
  work_schedule := [("Monday", "P")]
  weeks := 0
  workday_start := 480
  lunch_start := 720
  lunch_end := 780
  workday_end := 1020
  paid_time_off := 0

/-- A configuration with a project whose hours are negative from the start. -/
def cfgNegative : Config where
  projects := [("P", { total_hours := -1, dist := [] })]
  work_schedule := []
  weeks := 1
  workday_start := 480
  lunch_start := 720
  lunch_end := 780
  workday_end := 1020
  paid_time_off := 0

/-- A configuration with no projects but positive paid time off. -/
def cfgNoProjects : Config where
  projects := []
  work_schedule := []
  weeks := 1
  workday_start := 480
  lunch_start := 720
  lunch_end := 780
  workday_end := 1020
  paid_time_off := 8

/-- A configuration whose Monday is assigned to a project name that has no
task queue. -/
def cfgUnknownProject : Config where
  projects := [("P", { total_hours := 1, dist := [("X", 100)] })]
  work_schedule := [("Monday", "Q")]
  weeks := 1
  workday_start := 480
  lunch_start := 720
  lunch_end := 780
  workday_end := 1020
  paid_time_off := 0

/-!  General lemmas about the embedded operations.  -/

theorem pyInt_eq_floor (q : ℚ) (h : 0 ≤ q) : pyInt q = ⌊q⌋ := if_pos h

theorem snapEnd_self (b : ℤ) : snapEnd b b = b := by simp [snapEnd]

theorem scheduleSegment_of_nonpos (b c : ℤ) (ts : List Task) (h : ¬ 0 < b - c) :
    scheduleSegment b ts c = ([], ts) := by
  cases ts with
  | nil => rfl
  | cons hd tl =>
    obtain ⟨n, m⟩ := hd
    simp only [scheduleSegment]
    rw [if_neg h]

theorem generate_day_nil (cfg : Config) (dn : String) :
    generate_day cfg dn [] = ([Line.header dn, Line.lunch], []) := by
  simp [generate_day, scheduleSegment]

theorem aupdate_of_none {β : Type} (l : List (String × β)) (k : String) (v : β)
    (h : alookup l k = none) : aupdate l k v = l := by
  induction l with
  | nil => rfl
  | cons hd tl ih =>
    obtain ⟨k0, v0⟩ := hd
    by_cases hk : k0 = k
    · simp [alookup, hk] at h
    · simp only [aupdate, if_neg hk]
      simp only [alookup, if_neg hk] at h
      rw [ih h]

theorem initProjectsGo_error_shape (pto : ℚ) :
    ∀ l e, initProjectsGo pto l = Except.error e → ∃ p, e = AppError.negativeHours p := by
  intro l
  induction l with
  | nil => intro e h; simp [initProjectsGo] at h
  | cons hd tl ih =>
    intro e h
    obtain ⟨name, pc⟩ := hd
    simp only [initProjectsGo] at h
    by_cases hneg : pc.total_hours - pto < 0
    · rw [if_pos hneg] at h
      simp only [Except.error.injEq] at h
      exact ⟨name, h.symm⟩
    · rw [if_neg hneg] at h
      cases htl : initProjectsGo pto tl with
      | error e' =>
        rw [htl] at h
        simp only [Except.error.injEq] at h
        exact h ▸ ih e' htl
      | ok tail => rw [htl] at h; simp at h

theorem initProjectsGo_neg_iff (pto : ℚ) :
    ∀ l, (∃ p, initProjectsGo pto l = Except.error (AppError.negativeHours p)) ↔
      ∃ x ∈ l, x.2.total_hours - pto < 0 := by
  intro l
  induction l with
  | nil => simp [initProjectsGo]
  | cons hd tl ih =>
    obtain ⟨name, pc⟩ := hd
    by_cases hneg : pc.total_hours - pto < 0
    · constructor
      · intro _; exact ⟨(name, pc), List.mem_cons_self _ _, hneg⟩
      · intro _
        refine ⟨name, ?_⟩
        simp only [initProjectsGo]
        rw [if_pos hneg]
    · simp only [initProjectsGo]
      rw [if_neg hneg]
      cases htl : initProjectsGo pto tl with
      | error e =>
        constructor
        · intro ⟨p, hp⟩
          simp only [Except.error.injEq] at hp
          have hex := ih.mp ⟨p, by rw [htl, hp]⟩
          exact ⟨hex.choose, List.mem_cons_of_mem _ hex.choose_spec.1, hex.choose_spec.2⟩
        · intro ⟨x, hx, hxneg⟩
          rcases List.mem_cons.mp hx with hx1 | hx2
          · rw [hx1] at hxneg; exact absurd hxneg hneg
          · obtain ⟨p, hp⟩ := ih.mpr ⟨x, hx2, hxneg⟩
            rw [htl] at hp
            simp only [Except.error.injEq] at hp
            exact ⟨p, by rw [hp]⟩
      | ok tail =>
        constructor
        · intro ⟨p, hp⟩; simp at hp
        · intro ⟨x, hx, hxneg⟩
          rcases List.mem_cons.mp hx with hx1 | hx2
          · rw [hx1] at hxneg; exact absurd hxneg hneg
          · obtain ⟨p, hp⟩ := ih.mpr ⟨x, hx2, hxneg⟩
            rw [htl] at hp
            simp at hp

/-!  Claim theorems.  -/

/-- C4: each distribution entry is allocated the exact rational floor of
`effective_hours × 60 × percentage / 100`, and in particular 72 effective
hours split A = 20%, B = 80% yields 864 and 3456 minutes. -/
theorem allocation_is_rational_floor :
    (∀ work_hours percentage : ℚ, 0 ≤ work_hours → 0 ≤ percentage →
      allocated_minutes work_hours percentage = ⌊work_hours * 60 * percentage / 100⌋) ∧
    buildTasks 72 0 [("A", 20), ("B", 80)] = [("A", 864), ("B", 3456)] := by
  constructor
  · intro wh p hw hp
    have h0 : (0 : ℚ) ≤ wh * 60 * (p / 100) := by positivity
    have he : wh * 60 * (p / 100) = wh * 60 * p / 100 := by ring
    rw [allocated_minutes, pyInt_eq_floor _ h0, he]
  · with_unfolding_all rfl

/-- C4 witness: the theorem applied at the scenario values. -/
theorem allocation_is_rational_floor_witness :
    allocated_minutes 72 20 = ⌊(72 * 60 * 20 / 100 : ℚ)⌋ :=
  allocation_is_rational_floor.1 72 20 (by norm_num) (by norm_num)

/-- C6: an emitted end time within one minute of the segment boundary is
snapped to the boundary exactly, and is otherwise emitted unchanged;
consequently every entry emitted by a segment pass ends either exactly on the
boundary or at least two minutes before it. -/
theorem snap_within_one_minute :
    (∀ e b : ℤ, |e - b| ≤ 1 → snapEnd e b = b) ∧
    (∀ e b : ℤ, 1 < |e - b| → snapEnd e b = e) ∧
    (∀ (b c : ℤ) (ts : List Task), ∀ ent ∈ (scheduleSegment b ts c).1,
      ent.2.1 = b ∨ ent.2.1 + 2 ≤ b) := by
  refine ⟨fun e b h => if_pos h, fun e b h => if_neg (not_le.mpr h), ?_⟩
  intro b c ts
  induction ts generalizing c with
  | nil => intro ent h; simp [scheduleSegment] at h
  | cons hd tl ih =>
    intro ent h
    obtain ⟨n, m⟩ := hd
    by_cases h1 : 0 < b - c
    · simp only [scheduleSegment, if_pos h1] at h
      by_cases h2 : m ≤ b - c
      · rw [if_pos h2] at h
        rcases List.mem_cons.mp h with he | htl
        · subst he
          show snapEnd (c + m) b = b ∨ snapEnd (c + m) b + 2 ≤ b
          by_cases h3 : |c + m - b| ≤ 1
          · left; exact if_pos h3
          · right
            rw [snapEnd, if_neg h3]
            rcases abs_cases (c + m - b) with ⟨habs, _⟩ | ⟨habs, _⟩ <;>
              rw [habs] at h3 <;> omega
        · exact ih _ ent htl
      · rw [if_neg h2] at h
        simp only [List.mem_singleton] at h
        subst h
        left
        show snapEnd (c + (b - c)) b = b
        have : c + (b - c) = b := by ring
        rw [this, snapEnd_self]
    · rw [scheduleSegment_of_nonpos b c _ h1] at h
      simp at h

/-- C6 witness: a computed end one minute short of the boundary is snapped, a
distant one is unchanged, and the entry emitted by a concrete segment pass
(a 239-minute task snapped onto the 720 boundary) ends on the boundary or at
least two minutes before it. -/
theorem snap_within_one_minute_witness :
    snapEnd 719 720 = 720 ∧ snapEnd 539 720 = 539 ∧
    (((480, 720, "X") : Entry).2.1 = 720 ∨ ((480, 720, "X") : Entry).2.1 + 2 ≤ 720) :=
  ⟨snap_within_one_minute.1 719 720 (by decide),
    snap_within_one_minute.2.1 539 720 (by decide),
    snap_within_one_minute.2.2 720 480 [("X", 239)] (480, 720, "X")
      (by with_unfolding_all decide)⟩

/-- C7: a front task whose minutes exactly equal the remaining segment time
produces exactly one entry, that entry fills the segment to its boundary, and
the task is popped. -/
theorem exact_fit_consumes_segment (b c : ℤ) (n : String) (m : ℤ) (rest : List Task)
    (h1 : 0 < b - c) (h2 : m = b - c) :
    scheduleSegment b ((n, m) :: rest) c = ([(c, b, n)], rest) := by
  subst h2
  have he : c + (b - c) = b := by ring
  simp only [scheduleSegment, if_pos h1, le_refl, if_true, he, snapEnd_self]
  rw [scheduleSegment_of_nonpos b b rest (by omega)]

/-- C7 witness: the theorem at a concrete 240-minute morning with a
240-minute front task. -/
theorem exact_fit_consumes_segment_witness :
    scheduleSegment 720 [("X", 240), ("Y", 5)] 480 = ([(480, 720, "X")], [("Y", 5)]) :=
  exact_fit_consumes_segment 720 480 "X" 240 [("Y", 5)] (by decide) (by decide)

/-- C9: with no projects and positive PTO, initialization fails with the
division-by-zero error (not a configuration-style error); with non-positive
PTO the PTO share is zero and no division-by-zero error can arise. -/
theorem empty_projects_pto_div_zero (cfg : Config) :
    (cfg.projects = [] → 0 < cfg.paid_time_off →
      initializeProjects cfg = Except.error AppError.zeroDivision) ∧
    (cfg.paid_time_off ≤ 0 → ptoShare cfg = 0 ∧
      ∀ e, initializeProjects cfg = Except.error e → e ≠ AppError.zeroDivision) := by
  constructor
  · intro hp h0
    rw [initializeProjects, if_pos h0, if_pos (by rw [hp]; rfl)]
  · intro h0
    have hnot : ¬ 0 < cfg.paid_time_off := not_lt.mpr h0
    refine ⟨by rw [ptoShare, if_neg hnot], ?_⟩
    intro e he
    rw [initializeProjects, if_neg hnot] at he
    obtain ⟨p, hp⟩ := initProjectsGo_error_shape 0 cfg.projects e he
    rw [hp]
    intro hcontra
    exact AppError.noConfusion hcontra

/-- C9 witness: the theorem applied to the no-projects, 8-hours-PTO
configuration and to a zero-PTO configuration. -/
theorem empty_projects_pto_div_zero_witness :
    initializeProjects cfgNoProjects = Except.error AppError.zeroDivision ∧
    ptoShare cfgLeftover = 0 :=
  ⟨(empty_projects_pto_div_zero cfgNoProjects).1 rfl (by norm_num [cfgNoProjects]),
   ((empty_projects_pto_div_zero cfgLeftover).2 (by norm_num [cfgLeftover])).1⟩

/-- C1 (code behaviour at the failing input): the allocator emits a
zero-minute task `"A"` without filtering it, and `generate_day` then emits a
zero-length entry for it — an entry whose end time equals its start time —
contradicting the claim that no zero-minute task is ever emitted and that
every entry has end strictly greater than start. -/
theorem zero_minute_task_emitted :
    initializeProjects cfgZeroTask = Except.ok [("P", [("A", 0), ("B", 59)])] ∧
    (generate_day cfgZeroTask "Monday" [("A", 0), ("B", 59)]).1 =
      [Line.header "Monday", Line.task 480 480 "A", Line.task 480 539 "B", Line.lunch] := by
  constructor
  · with_unfolding_all rfl
  · with_unfolding_all rfl

/-- C8: when the weekday maps to no project, or to a project without a task
queue, the day is generated from an empty task list: its output is exactly
the day header and the unconditional Lunch line, and the project queues are
untouched. -/
theorem missing_project_day (cfg : Config) (pt : List (String × List Task)) (i : ℕ)
    (h : (alookup cfg.work_schedule (dayName i)).bind (fun p => alookup pt p) = none) :
    dayStep cfg pt i =
      ((alookup cfg.work_schedule (dayName i), [Line.header (dayName i), Line.lunch]), pt) := by
  rw [dayStep]
  cases hp : alookup cfg.work_schedule (dayName i) with
  | none => rw [generate_day_nil]
  | some p =>
    rw [hp] at h
    simp only [Option.some_bind] at h
    dsimp only
    rw [h]
    simp only [Option.getD_none]
    rw [generate_day_nil, aupdate_of_none pt p _ h]

/-- C8 witness: a Monday mapped to the unknown project name `"Q"` yields just
the header and Lunch lines and leaves the queues unchanged. -/
theorem missing_project_day_witness :
    dayStep cfgUnknownProject [("P", [("X", 60)])] 0 =
      ((some "Q", [Line.header "Monday", Line.lunch]), [("P", [("X", 60)])]) := by
  have h := missing_project_day cfgUnknownProject [("P", [("X", 60)])] 0 (by with_unfolding_all rfl)
  rw [h]
  with_unfolding_all rfl

/-- C3: initialization raises the negative-effective-hours error exactly when
some project's total hours fall below its PTO share, and that error aborts
the whole run. -/
theorem negative_effective_hours_iff (cfg : Config) :
    ((∃ p, initializeProjects cfg = Except.error (AppError.negativeHours p)) ↔
      ∃ x ∈ cfg.projects, x.2.total_hours - ptoShare cfg < 0) ∧
    (∀ p, initializeProjects cfg = Except.error (AppError.negativeHours p) →
      runApp cfg = Except.error (AppError.negativeHours p)) := by
  constructor
  · by_cases h0 : 0 < cfg.paid_time_off
    · by_cases hn : cfg.projects.length = 0
      · rw [initializeProjects, if_pos h0, if_pos hn]
        rw [List.length_eq_zero] at hn
        rw [hn]
        simp
      · rw [initializeProjects, if_pos h0, if_neg hn, ptoShare, if_pos h0]
        exact initProjectsGo_neg_iff _ cfg.projects
    · rw [initializeProjects, if_neg h0, ptoShare, if_neg h0]
      exact initProjectsGo_neg_iff 0 cfg.projects
  · intro p hp
    rw [runApp, hp]

/-- C3 witness: a project with −1 total hours and no PTO triggers the
negative-effective-hours error. -/
theorem negative_effective_hours_iff_witness :
    ∃ p, initializeProjects cfgNegative = Except.error (AppError.negativeHours p) :=
  (negative_effective_hours_iff cfgNegative).1.mpr
    ⟨("P", { total_hours := -1, dist := [] }), by simp [cfgNegative],
      by norm_num [cfgNegative, ptoShare]⟩

/-!  Frame lemmas for the queue mutation (claim C10).  -/

theorem frameOk_refl (l : List Task) : frameOk l l := ⟨0, Or.inl rfl⟩

theorem frameOk_cons (hd : Task) (tl fin : List Task) (h : frameOk tl fin) :
    frameOk (hd :: tl) fin := by
  obtain ⟨k, h⟩ := h
  exact ⟨k + 1, by rw [List.drop_succ_cons]; exact h⟩

theorem frameOk_trans (a b c : List Task) (hab : frameOk a b) (hbc : frameOk b c) :
    frameOk a c := by
  obtain ⟨k, hab⟩ := hab
  obtain ⟨j, hbc⟩ := hbc
  rcases hab with hab | ⟨n, m, m', rest, ha1, ha2, hm⟩
  · subst hab
    rcases hbc with hbc | ⟨n, m, m', rest, hb1, hb2, hm⟩
    · exact ⟨k + j, Or.inl (by rw [hbc, List.drop_drop])⟩
    · exact ⟨k + j, Or.inr ⟨n, m, m', rest, by rw [← List.drop_drop]; exact hb1, hb2, hm⟩⟩
  · subst ha2
    rcases hbc with hbc | ⟨n2, m2, m2', rest2, hb1, hb2, hm2⟩
    · cases j with
      | zero => exact ⟨k, Or.inr ⟨n, m, m', rest, ha1, by rw [hbc]; rfl, hm⟩⟩
      | succ j' =>
        refine ⟨k + (j' + 1), Or.inl ?_⟩
        rw [hbc, List.drop_succ_cons, ← List.drop_drop, ha1, List.drop_succ_cons]
    · cases j with
      | zero =>
        simp only [List.drop_zero] at hb1
        injection hb1 with hpair hrest
        injection hpair with hn hm'
        subst hn hm' hrest
        exact ⟨k, Or.inr ⟨n, m, m2', rest, ha1, hb2, le_trans hm2 hm⟩⟩
      | succ j' =>
        rw [List.drop_succ_cons] at hb1
        refine ⟨k + (j' + 1), Or.inr ⟨n2, m2, m2', rest2, ?_, hb2, hm2⟩⟩
        rw [← List.drop_drop, ha1, List.drop_succ_cons]
        exact hb1

theorem frameOk_length (a b : List Task) (h : frameOk a b) : b.length ≤ a.length := by
  obtain ⟨k, h | ⟨n, m, m', rest, h1, h2, _⟩⟩ := h
  · rw [h, List.length_drop]; omega
  · have hd : (a.drop k).length ≤ a.length := by rw [List.length_drop]; omega
    rw [h1] at hd
    rw [h2]
    simpa using hd

theorem scheduleSegment_frame (b : ℤ) : ∀ (ts : List Task) (c : ℤ),
    frameOk ts (scheduleSegment b ts c).2 := by
  intro ts
  induction ts with
  | nil => intro c; exact ⟨0, Or.inl rfl⟩
  | cons hd tl ih =>
    intro c
    obtain ⟨n, m⟩ := hd
    simp only [scheduleSegment]
    by_cases h1 : 0 < b - c
    · rw [if_pos h1]
      by_cases h2 : m ≤ b - c
      · rw [if_pos h2]
        exact frameOk_cons _ _ _ (ih (snapEnd (c + m) b))
      · rw [if_neg h2]
        exact ⟨0, Or.inr ⟨n, m, m - (b - c), tl, rfl, rfl, by linarith⟩⟩
    · rw [if_neg h1]
      exact frameOk_refl _

/-- C10: a day's scheduling pass only consumes a front prefix of the queue:
the final queue is a suffix of the initial queue whose front task may have
had its minutes reduced in place (same name, same tasks after it, minutes
never increased), and the queue never grows. -/
theorem generate_day_queue_frame (cfg : Config) (dn : String) (ts : List Task) :
    frameOk ts (generate_day cfg dn ts).2 ∧
    (generate_day cfg dn ts).2.length ≤ ts.length := by
  have h1 := scheduleSegment_frame cfg.lunch_start ts cfg.workday_start
  have h2 := scheduleSegment_frame cfg.workday_end
    (scheduleSegment cfg.lunch_start ts cfg.workday_start).2 cfg.lunch_end
  have h := frameOk_trans _ _ _ h1 h2
  exact ⟨h, frameOk_length _ _ h⟩

/-!  Conservation lemmas: what a segment pass drains from the queue versus
what it emits.  Snapping can only lengthen an emitted entry, so the emitted
minutes dominate the drained minutes, while the drained minutes are bounded
by the segment length.  -/

theorem queueTotal_nil : queueTotal ([] : List Task) = 0 := rfl

theorem queueTotal_cons (t : Task) (ts : List Task) :
    queueTotal (t :: ts) = t.2 + queueTotal ts := by
  simp [queueTotal]

theorem entriesMinutes_nil : entriesMinutes [] = 0 := rfl

theorem entriesMinutes_cons (e : Entry) (es : List Entry) :
    entriesMinutes (e :: es) = entryMinutes e + entriesMinutes es := by
  simp [entriesMinutes]

theorem snapEnd_ge (c m b : ℤ) (h : m ≤ b - c) : c + m ≤ snapEnd (c + m) b := by
  by_cases hs : |c + m - b| ≤ 1
  · rw [snapEnd, if_pos hs]; linarith
  · rw [snapEnd, if_neg hs]

theorem snapEnd_le (c m b : ℤ) (h : m ≤ b - c) : snapEnd (c + m) b ≤ b := by
  by_cases hs : |c + m - b| ≤ 1
  · rw [snapEnd, if_pos hs]
  · rw [snapEnd, if_neg hs]; linarith

theorem scheduleSegment_drain_le (b : ℤ) : ∀ (ts : List Task) (c : ℤ),
    queueTotal ts - queueTotal (scheduleSegment b ts c).2 ≤ max 0 (b - c) := by
  intro ts
  induction ts with
  | nil =>
    intro c
    simp only [scheduleSegment, queueTotal, List.map_nil, List.sum_nil, sub_self]
    exact le_max_left 0 (b - c)
  | cons hd tl ih =>
    intro c
    obtain ⟨n, m⟩ := hd
    by_cases h1 : 0 < b - c
    · simp only [scheduleSegment]
      rw [if_pos h1]
      by_cases h2 : m ≤ b - c
      · rw [if_pos h2]
        dsimp only
        have hge := snapEnd_ge c m b h2
        have hle := snapEnd_le c m b h2
        have ih' := ih (snapEnd (c + m) b)
        rw [max_eq_right (by linarith : (0 : ℤ) ≤ b - snapEnd (c + m) b)] at ih'
        rw [queueTotal_cons, max_eq_right (le_of_lt h1)]
        dsimp only
        linarith
      · rw [if_neg h2]
        dsimp only
        rw [queueTotal_cons, queueTotal_cons, max_eq_right (le_of_lt h1)]
        dsimp only
        linarith
    · rw [scheduleSegment_of_nonpos b c _ h1]
      simp only [sub_self]
      exact le_max_left 0 (b - c)

theorem scheduleSegment_emit_ge (b : ℤ) : ∀ (ts : List Task) (c : ℤ),
    queueTotal ts - queueTotal (scheduleSegment b ts c).2 ≤
      entriesMinutes (scheduleSegment b ts c).1 := by
  intro ts
  induction ts with
  | nil => intro c; simp [scheduleSegment, queueTotal, entriesMinutes]
  | cons hd tl ih =>
    intro c
    obtain ⟨n, m⟩ := hd
    by_cases h1 : 0 < b - c
    · simp only [scheduleSegment]
      rw [if_pos h1]
      by_cases h2 : m ≤ b - c
      · rw [if_pos h2]
        dsimp only
        rw [queueTotal_cons, entriesMinutes_cons]
        have hge := snapEnd_ge c m b h2
        have ih' := ih (snapEnd (c + m) b)
        dsimp only [entryMinutes]
        linarith
      · rw [if_neg h2]
        dsimp only
        rw [queueTotal_cons, queueTotal_cons, entriesMinutes_cons, entriesMinutes_nil]
        have he : c + (b - c) = b := by ring
        rw [he, snapEnd_self]
        dsimp only [entryMinutes]
        linarith
    · rw [scheduleSegment_of_nonpos b c _ h1]
      simp [entriesMinutes]

theorem linesMinutes_nil : linesMinutes [] = 0 := rfl

theorem linesMinutes_cons (x : Line) (l : List Line) :
    linesMinutes (x :: l) = lineMinutes x + linesMinutes l := by
  simp [linesMinutes]

theorem linesMinutes_append (l1 l2 : List Line) :
    linesMinutes (l1 ++ l2) = linesMinutes l1 + linesMinutes l2 := by
  simp [linesMinutes]

theorem linesMinutes_map (es : List Entry) :
    linesMinutes (es.map lineOfEntry) = entriesMinutes es := by
  induction es with
  | nil => rfl
  | cons e tl ih =>
    rw [List.map_cons, linesMinutes_cons, entriesMinutes_cons, ih]
    rfl

theorem generate_day_drain_le (cfg : Config) (dn : String) (ts : List Task)
    (hws : cfg.workday_start ≤ cfg.lunch_start) (hle : cfg.lunch_end ≤ cfg.workday_end) :
    queueTotal ts - queueTotal (generate_day cfg dn ts).2 ≤ dayCap cfg := by
  have h1 := scheduleSegment_drain_le cfg.lunch_start ts cfg.workday_start
  have h2 := scheduleSegment_drain_le cfg.workday_end
    (scheduleSegment cfg.lunch_start ts cfg.workday_start).2 cfg.lunch_end
  rw [max_eq_right (by linarith : (0 : ℤ) ≤ cfg.lunch_start - cfg.workday_start)] at h1
  rw [max_eq_right (by linarith : (0 : ℤ) ≤ cfg.workday_end - cfg.lunch_end)] at h2
  dsimp only [generate_day, dayCap]
  linarith

theorem generate_day_emit_ge (cfg : Config) (dn : String) (ts : List Task) :
    queueTotal ts - queueTotal (generate_day cfg dn ts).2 ≤
      linesMinutes (generate_day cfg dn ts).1 := by
  have h1 := scheduleSegment_emit_ge cfg.lunch_start ts cfg.workday_start
  have h2 := scheduleSegment_emit_ge cfg.workday_end
    (scheduleSegment cfg.lunch_start ts cfg.workday_start).2 cfg.lunch_end
  dsimp only [generate_day]
  rw [linesMinutes_cons, linesMinutes_append, linesMinutes_cons,
    linesMinutes_map, linesMinutes_map]
  dsimp only [lineMinutes]
  linarith

/-!  Association-list lemmas for the project-queue dictionary.  -/

theorem alookup_aupdate_self {q : List Task} (l : List (String × List Task))
    (k : String) (v : List Task) (h : alookup l k = some q) :
    alookup (aupdate l k v) k = some v := by
  induction l with
  | nil => simp [alookup] at h
  | cons hd tl ih =>
    obtain ⟨k0, v0⟩ := hd
    by_cases hk : k0 = k
    · simp only [aupdate, if_pos hk, alookup, if_pos hk]
    · simp only [alookup, if_neg hk] at h
      simp only [aupdate, if_neg hk, alookup, if_neg hk]
      exact ih h

theorem alookup_aupdate_ne (l : List (String × List Task)) (k k' : String)
    (v : List Task) (h : k ≠ k') :
    alookup (aupdate l k v) k' = alookup l k' := by
  induction l with
  | nil => rfl
  | cons hd tl ih =>
    obtain ⟨k0, v0⟩ := hd
    by_cases hk : k0 = k
    · have hk' : ¬ k0 = k' := fun hc => h (hk ▸ hc ▸ rfl)
      simp only [aupdate, if_pos hk, alookup, if_neg hk']
    · simp only [aupdate, if_neg hk, alookup]
      by_cases hk' : k0 = k'
      · rw [if_pos hk', if_pos hk']
      · rw [if_neg hk', if_neg hk']
        exact ih

theorem alookup_aupdate_isSome (l : List (String × List Task)) (k k' : String)
    (v : List Task) :
    (alookup (aupdate l k v) k').isSome = (alookup l k').isSome := by
  by_cases hk : k = k'
  · subst hk
    cases h : alookup l k with
    | none => rw [aupdate_of_none l k v h, h]
    | some q => rw [alookup_aupdate_self l k v h]; rfl
  · rw [alookup_aupdate_ne l k k' v hk]

theorem totalAlloc_nil : totalAlloc [] = 0 := rfl

theorem totalAlloc_cons (x : String × List Task) (l : List (String × List Task)) :
    totalAlloc (x :: l) = queueTotal x.2 + totalAlloc l := by
  simp [totalAlloc]

theorem totalAlloc_aupdate {q : List Task} (l : List (String × List Task))
    (k : String) (v : List Task) (h : alookup l k = some q) :
    totalAlloc (aupdate l k v) = totalAlloc l - queueTotal q + queueTotal v := by
  induction l with
  | nil => simp [alookup] at h
  | cons hd tl ih =>
    obtain ⟨k0, v0⟩ := hd
    by_cases hk : k0 = k
    · simp only [alookup, if_pos hk] at h
      injection h with h
      simp only [aupdate, if_pos hk, totalAlloc_cons, h]
      ring
    · simp only [alookup, if_neg hk] at h
      simp only [aupdate, if_neg hk, totalAlloc_cons, ih h]
      ring

theorem alookup_mem {β : Type} (l : List (String × β)) (k : String) (v : β)
    (h : alookup l k = some v) : (k, v) ∈ l := by
  induction l with
  | nil => simp [alookup] at h
  | cons hd tl ih =>
    obtain ⟨k0, v0⟩ := hd
    by_cases hk : k0 = k
    · simp only [alookup, if_pos hk] at h
      injection h with h
      subst hk h
      exact List.mem_cons_self _ _
    · simp only [alookup, if_neg hk] at h
      exact List.mem_cons_of_mem _ (ih h)

/-!  Day-level and run-level conservation.  -/

theorem dayStep_drain_le (cfg : Config) (pt : List (String × List Task)) (i : ℕ)
    (hws : cfg.workday_start ≤ cfg.lunch_start) (hle : cfg.lunch_end ≤ cfg.workday_end) :
    totalAlloc pt - totalAlloc (dayStep cfg pt i).2 ≤ dayCap cfg := by
  have hcap : (0 : ℤ) ≤ dayCap cfg := by dsimp [dayCap]; linarith
  rw [dayStep]
  cases hp : alookup cfg.work_schedule (dayName i) with
  | none => simpa using hcap
  | some p =>
    dsimp only
    cases hq : alookup pt p with
    | none =>
      rw [aupdate_of_none pt p _ hq]
      simpa using hcap
    | some q =>
      simp only [Option.getD_some]
      rw [totalAlloc_aupdate pt p _ hq]
      have := generate_day_drain_le cfg (dayName i) q hws hle
      linarith

theorem dayStep_keys (cfg : Config) (pt : List (String × List Task)) (i : ℕ) (p : String) :
    (alookup (dayStep cfg pt i).2 p).isSome = (alookup pt p).isSome := by
  rw [dayStep]
  cases hp : alookup cfg.work_schedule (dayName i) with
  | none => rfl
  | some p' => exact alookup_aupdate_isSome pt p' p _

theorem dayStep_emit (cfg : Config) (pt : List (String × List Task)) (i : ℕ) (p : String) :
    optTotal (alookup pt p) - optTotal (alookup (dayStep cfg pt i).2 p) ≤
      (if (dayStep cfg pt i).1.1 = some p then linesMinutes (dayStep cfg pt i).1.2 else 0) := by
  rw [dayStep]
  cases hp : alookup cfg.work_schedule (dayName i) with
  | none => simp
  | some p' =>
    dsimp only
    by_cases hpp : p' = p
    · subst hpp
      rw [if_pos rfl]
      cases hq : alookup pt p' with
      | none =>
        rw [aupdate_of_none pt p' _ hq, hq]
        simp only [Option.getD_none, generate_day_nil, sub_self]
        rw [linesMinutes_cons, linesMinutes_cons, linesMinutes_nil]
        dsimp [lineMinutes]
        linarith
      | some q =>
        rw [alookup_aupdate_self pt p' _ hq]
        simp only [Option.getD_some, optTotal]
        exact generate_day_emit_ge cfg (dayName i) q
    · rw [if_neg (fun hc => hpp (Option.some.inj hc)), alookup_aupdate_ne pt p' p _ hpp]
      simp

theorem runDaysFrom_drain_le (cfg : Config)
    (hws : cfg.workday_start ≤ cfg.lunch_start) (hle : cfg.lunch_end ≤ cfg.workday_end) :
    ∀ (k i : ℕ) (pt : List (String × List Task)),
      totalAlloc pt - totalAlloc (runDaysFrom cfg i k pt).2 ≤ (k : ℤ) * dayCap cfg := by
  intro k
  induction k with
  | zero => intro i pt; simp [runDaysFrom]
  | succ k ih =>
    intro i pt
    have h1 := dayStep_drain_le cfg pt i hws hle
    have h2 := ih (i + 1) (dayStep cfg pt i).2
    simp only [runDaysFrom]
    push_cast
    linarith

theorem runDaysFrom_keys (cfg : Config) (p : String) :
    ∀ (k i : ℕ) (pt : List (String × List Task)),
      (alookup (runDaysFrom cfg i k pt).2 p).isSome = (alookup pt p).isSome := by
  intro k
  induction k with
  | zero => intro i pt; rfl
  | succ k ih =>
    intro i pt
    simp only [runDaysFrom]
    rw [ih (i + 1) (dayStep cfg pt i).2, dayStep_keys]

theorem emittedFor_nil (p : String) : emittedFor p [] = 0 := rfl

theorem emittedFor_cons (p : String) (d : Option String × List Line)
    (outs : List (Option String × List Line)) :
    emittedFor p (d :: outs) =
      (if d.1 = some p then linesMinutes d.2 else 0) + emittedFor p outs := by
  simp [emittedFor]

theorem runDaysFrom_emit (cfg : Config) (p : String) :
    ∀ (k i : ℕ) (pt : List (String × List Task)),
      optTotal (alookup pt p) - optTotal (alookup (runDaysFrom cfg i k pt).2 p) ≤
        emittedFor p (runDaysFrom cfg i k pt).1 := by
  intro k
  induction k with
  | zero => intro i pt; simp [runDaysFrom, emittedFor]
  | succ k ih =>
    intro i pt
    have h1 := dayStep_emit cfg pt i p
    have h2 := ih (i + 1) (dayStep cfg pt i).2
    simp only [runDaysFrom]
    rw [emittedFor_cons]
    linarith

/-!  The final queue-emptiness check.  -/

theorem firstNonEmpty_none_iff (l : List (String × List Task)) :
    firstNonEmpty l = none ↔ ∀ x ∈ l, x.2 = [] := by
  induction l with
  | nil => simp [firstNonEmpty]
  | cons hd tl ih =>
    by_cases h : hd.2 = []
    · simp only [firstNonEmpty, if_pos h]
      rw [ih]
      constructor
      · intro hall x hx
        rcases List.mem_cons.mp hx with hx1 | hx2
        · rw [hx1]; exact h
        · exact hall x hx2
      · intro hall x hx
        exact hall x (List.mem_cons_of_mem _ hx)
    · simp only [firstNonEmpty, if_neg h]
      constructor
      · intro hc; exact absurd hc (by simp)
      · intro hall
        exact absurd (hall hd (List.mem_cons_self _ _)) h

theorem firstNonEmpty_some_shape (l : List (String × List Task))
    (p : String) (ts : List Task) (h : firstNonEmpty l = some (p, ts)) :
    (p, ts) ∈ l ∧ ts ≠ [] := by
  induction l with
  | nil => simp [firstNonEmpty] at h
  | cons hd tl ih =>
    by_cases hh : hd.2 = []
    · rw [firstNonEmpty, if_pos hh] at h
      obtain ⟨hmem, hne⟩ := ih h
      exact ⟨List.mem_cons_of_mem _ hmem, hne⟩
    · rw [firstNonEmpty, if_neg hh] at h
      injection h with h
      subst h
      exact ⟨List.mem_cons_self _ _, hh⟩

theorem totalAlloc_eq_zero_of_all_nil (l : List (String × List Task))
    (h : ∀ x ∈ l, x.2 = []) : totalAlloc l = 0 := by
  induction l with
  | nil => rfl
  | cons hd tl ih =>
    rw [totalAlloc_cons, h hd (List.mem_cons_self _ _)]
    rw [ih (fun x hx => h x (List.mem_cons_of_mem _ hx))]
    rfl

theorem exists_nonempty_of_total_pos (l : List (String × List Task))
    (h : 0 < totalAlloc l) : ∃ x ∈ l, x.2 ≠ [] := by
  by_contra hc
  push_neg at hc
  rw [totalAlloc_eq_zero_of_all_nil l hc] at h
  exact lt_irrefl 0 h

/-- C5: after the `weeks * 5` day loop the orchestrator checks every
project's queue; if all are empty the run completes and returns the collected
schedule, and if any is non-empty it fails with the assertion error carrying
the offending project's name and its remaining (non-empty) task list. -/
theorem final_queue_assertion (cfg : Config) (pt : List (String × List Task))
    (hinit : initializeProjects cfg = Except.ok pt) :
    ((∀ x ∈ (runDays cfg pt).2, x.2 = []) →
      runApp cfg = Except.ok (runDays cfg pt).1) ∧
    ((∃ x ∈ (runDays cfg pt).2, x.2 ≠ []) →
      ∃ p ts, runApp cfg = Except.error (AppError.assertionFailed p ts) ∧
        ts ≠ [] ∧ (p, ts) ∈ (runDays cfg pt).2) := by
  constructor
  · intro hall
    rw [runApp, hinit]
    dsimp only
    rw [(firstNonEmpty_none_iff _).mpr hall]
  · intro ⟨x, hx, hne⟩
    cases hfe : firstNonEmpty (runDays cfg pt).2 with
    | none => exact absurd ((firstNonEmpty_none_iff _).mp hfe x hx) hne
    | some pts =>
      obtain ⟨p, ts⟩ := pts
      obtain ⟨hmem, hne'⟩ := firstNonEmpty_some_shape _ p ts hfe
      exact ⟨p, ts, by rw [runApp, hinit]; dsimp only; rw [hfe], hne', hmem⟩

/-- C5 witness: with zero scheduled weeks and sixty allocated minutes the run
fails the final check, naming the project and its leftover task. -/
theorem final_queue_assertion_witness :
    ∃ p ts, runApp cfgLeftover = Except.error (AppError.assertionFailed p ts) ∧
      ts ≠ [] ∧ (p, ts) ∈ (runDays cfgLeftover [("P", [("X", 60)])]).2 :=
  (final_queue_assertion cfgLeftover [("P", [("X", 60)])] (by with_unfolding_all rfl)).2
    ⟨("P", [("X", 60)]), by with_unfolding_all decide, by with_unfolding_all decide⟩

/-- C2 (amended): when total capacity is strictly below total allocated
demand the run necessarily fails the end-of-run queue-emptiness check; and
whenever the run does complete, each project's emitted task minutes
(excluding Lunch) are at least — not exactly — its total allocated minutes,
since boundary snapping can lengthen an emitted entry beyond what it drains
from the queue. -/
theorem run_capacity_and_emission (cfg : Config) (pt : List (String × List Task))
    (hinit : initializeProjects cfg = Except.ok pt)
    (hws : cfg.workday_start ≤ cfg.lunch_start)
    (hle : cfg.lunch_end ≤ cfg.workday_end) :
    (capacity cfg < totalAlloc pt →
      ∃ p ts, runApp cfg = Except.error (AppError.assertionFailed p ts)) ∧
    (∀ out, runApp cfg = Except.ok out →
      ∀ p q, alookup pt p = some q → queueTotal q ≤ emittedFor p out) := by
  constructor
  · intro hcap
    have hdrain := runDaysFrom_drain_le cfg hws hle (cfg.weeks * 5) 0 pt
    have hceq : ((cfg.weeks * 5 : ℕ) : ℤ) * dayCap cfg = capacity cfg := rfl
    have hpos : 0 < totalAlloc (runDays cfg pt).2 := by
      dsimp only [runDays]
      linarith
    obtain ⟨x, hx, hne⟩ := exists_nonempty_of_total_pos _ hpos
    cases hfe : firstNonEmpty (runDays cfg pt).2 with
    | none => exact absurd ((firstNonEmpty_none_iff _).mp hfe x hx) hne
    | some pts =>
      exact ⟨pts.1, pts.2, by rw [runApp, hinit]; dsimp only; rw [hfe]⟩
  · intro out hok p q hq
    rw [runApp, hinit] at hok
    dsimp only at hok
    cases hfe : firstNonEmpty (runDays cfg pt).2 with
    | some pts => rw [hfe] at hok; exact absurd hok (by simp)
    | none =>
      rw [hfe] at hok
      injection hok with hout
      subst hout
      have hkeys := runDaysFrom_keys cfg p (cfg.weeks * 5) 0 pt
      have hsome : (alookup (runDays cfg pt).2 p).isSome = true := by
        dsimp only [runDays]
        rw [hkeys, hq]
        rfl
      obtain ⟨q', hq'⟩ := Option.isSome_iff_exists.mp hsome
      have hmem := alookup_mem _ p q' hq'
      have hnil : q' = [] := (firstNonEmpty_none_iff _).mp hfe (p, q') hmem
      subst hnil
      have hemit := runDaysFrom_emit cfg p (cfg.weeks * 5) 0 pt
      dsimp only [runDays] at hq'
      rw [hq, hq'] at hemit
      simp only [optTotal, queueTotal_nil, sub_zero] at hemit
      exact hemit

/-- C2 witness: zero weeks of capacity against sixty allocated minutes makes
the run fail the end-of-run check, by the capacity half of the theorem. -/
theorem run_capacity_and_emission_witness :
    ∃ p ts, runApp cfgLeftover = Except.error (AppError.assertionFailed p ts) :=
  (run_capacity_and_emission cfgLeftover [("P", [("X", 60)])]
    (by with_unfolding_all rfl) (by decide) (by decide)).1 (by with_unfolding_all decide)

/-- C2 counterexample to the claim as stated: a single 239-minute task in a
2400-minute-capacity week is emitted as a 240-minute entry (snapped onto the
lunch boundary), so the run completes with capacity ≥ demand yet the
project's summed emitted minutes are 240, not the allocated 239. -/
theorem snapped_run_breaks_exact_sum :
    initializeProjects cfgSnap = Except.ok [("P", [("X", 239)])] ∧
    totalAlloc [("P", [("X", 239)])] = 239 ∧
    totalAlloc [("P", [("X", 239)])] ≤ capacity cfgSnap ∧
    runApp cfgSnap = Except.ok (runDays cfgSnap [("P", [("X", 239)])]).1 ∧
    emittedFor "P" (runDays cfgSnap [("P", [("X", 239)])]).1 = 240 :=
  ⟨by with_unfolding_all rfl, by with_unfolding_all rfl, by with_unfolding_all decide,
   by with_unfolding_all rfl, by with_unfolding_all rfl⟩

end Timesheet
